import Mathlib

/-!
Verification of the MTProxy Go data plane against its natural-language
specification.  The definitions below are shallow embeddings of the Go
source: pure functions become Lean functions, stateful objects become
explicit state records, machine integers become `Nat`/`Int` (with `% 2 ^ 64`
where a `uint64` counter wraps), and fallible operations return `Except`.
-/

set_option maxRecDepth 4000
set_option linter.unusedVariables false

/-- Little-endian read of `len` bytes of `frame` starting at `off`
(`binary.LittleEndian.Uint32/Uint64` in the Go source; bytes out of range
read as 0, which the source never does because it checks lengths first). -/
def leRead (frame : List Nat) (off : Nat) : Nat → Nat
  | 0 => 0
  | len + 1 => frame.getD off 0 + 256 * leRead frame (off + 1) len

/-- Reinterpret a `uint32` value as Go's `int32` (two's complement). -/
def toInt32 (v : Nat) : Int :=
  if v < 2 ^ 31 then (v : Int) else (v : Int) - 2 ^ 32

/-- `protocol.PacketKind` from the Go source. -/
inductive PacketKind where
  | unknown
  | encrypted
  | dhHandshake
  deriving DecidableEq, Repr

/-- `protocol.PacketInfo` from the Go source. -/
structure PacketInfo where
  kind : PacketKind
  authKeyID : Nat
  innerLength : Int
  function : Nat
  length : Nat
  deriving DecidableEq, Repr

/-- The reasons `protocol.ParseMTProtoPacket` can fail (each corresponds to
one `fmt.Errorf` site in the source). -/
inductive ParseError where
  | invalidFrameLength
  | invalidEncryptedLength
  | badInnerLengthMax
  | badInnerLength
  | badFunction
  deriving DecidableEq, Repr

/-- `protocol.IsDHHandshakeFunction` from the Go source: the four
DH-handshake function codes. -/
def IsDHHandshakeFunction (op : Nat) : Bool :=
  op = 0x60469778 ∨ op = 0xbe7e8ef1 ∨ op = 0xd712e4be ∨ op = 0xf5045f1f

/-- `protocol.ParseMTProtoPacket` from the Go source, byte-for-byte:
reject frames shorter than 28 bytes or of length not divisible by 4;
a non-zero little-endian u64 auth-key id selects the encrypted envelope
(minimum 56 bytes); otherwise bytes [16..20) are a signed inner length and
bytes [20..24) the handshake function code. -/
def ParseMTProtoPacket (frame : List Nat) : Except ParseError PacketInfo :=
  if frame.length < 28 ∨ frame.length % 4 ≠ 0 then
    .error .invalidFrameLength
  else
    let authKeyID := leRead frame 0 8
    if authKeyID ≠ 0 then
      if frame.length < 56 then
        .error .invalidEncryptedLength
      else
        .ok ⟨.encrypted, authKeyID, 0, 0, frame.length⟩
    else
      let innerLen := toInt32 (leRead frame 16 4)
      if (frame.length : Int) < innerLen + 20 then
        .error .badInnerLengthMax
      else if innerLen < 20 then
        .error .badInnerLength
      else
        let function := leRead frame 20 4
        if ¬ IsDHHandshakeFunction function then
          .error .badFunction
        else
          .ok ⟨.dhHandshake, 0, innerLen, function, frame.length⟩

/-- `protocol.SessionState` from the Go source. -/
inductive SessionState where
  | init
  | handshake
  | encrypted
  deriving DecidableEq, Repr

/-- `Session.AcceptInfo` from the Go source: an encrypted packet moves the
session to `encrypted`; a DH-handshake packet moves it to `handshake`
unless it is already `encrypted`; other kinds leave it unchanged. -/
def acceptInfo (s : SessionState) (info : PacketInfo) : SessionState :=
  match info.kind with
  | .encrypted => .encrypted
  | .dhHandshake => if s = .encrypted then s else .handshake
  | .unknown => s

/-- `Session.AcceptPacket` from the Go source: classify the frame, and on
success feed the classification into the state machine. -/
def acceptPacket (s : SessionState) (frame : List Nat) : SessionState :=
  match ParseMTProtoPacket frame with
  | .error _ => s
  | .ok info => acceptInfo s info

/-- C8: once a session is `encrypted` no later packet (in particular no
later DH-handshake packet) moves it to any other state, whether packets are
fed one at a time through `AcceptInfo` or as raw frames through
`AcceptPacket`. -/
theorem session_encrypted_absorbing :
    (∀ info : PacketInfo, acceptInfo SessionState.encrypted info = SessionState.encrypted)
    ∧ (∀ infos : List PacketInfo,
        infos.foldl acceptInfo SessionState.encrypted = SessionState.encrypted)
    ∧ (∀ frames : List (List Nat),
        frames.foldl acceptPacket SessionState.encrypted = SessionState.encrypted) := by
  have hstep : ∀ info : PacketInfo,
      acceptInfo SessionState.encrypted info = SessionState.encrypted := by
    intro info
    cases h : info.kind <;> simp [acceptInfo, h]
  have hpkt : ∀ frame : List Nat,
      acceptPacket SessionState.encrypted frame = SessionState.encrypted := by
    intro frame
    unfold acceptPacket
    cases ParseMTProtoPacket frame <;> simp [hstep]
  refine ⟨hstep, ?_, ?_⟩
  · intro infos
    induction infos with
    | nil => rfl
    | cons i rest ih => simpa [hstep] using ih
  · intro frames
    induction frames with
    | nil => rfl
    | cons f rest ih => simpa [hpkt] using ih

/-- Bitwise complement of a `uint32` value (Go's `^x`). -/
def compl32 (x : Nat) : Nat := x ^^^ 0xffffffff

/-- The reversed CRC-32/IEEE polynomial (`crc32.IEEE` in the Go source). -/
def ieeePoly : Nat := 0xedb88320

/-- The reversed CRC-32C polynomial (`crc32.Castagnoli` in the Go source). -/
def castagnoliPoly : Nat := 0x82f63b78

/-- One shift round of `crc32.MakeTable` from Go's `hash/crc32`. -/
def crcEntryRound (poly : Nat) (crc : Nat) : Nat :=
  if crc % 2 = 1 then (crc / 2) ^^^ poly else crc / 2

/-- Entry `i` of the table built by `crc32.MakeTable`: eight shift rounds. -/
def crcTableEntry (poly : Nat) (i : Nat) : Nat :=
  (crcEntryRound poly)^[8] i

/-- One byte of Go's `crc32.simpleUpdate` inner loop:
`crc = tab[byte(crc)^b] ^ (crc >> 8)`. -/
def crcByteStep (poly : Nat) (reg : Nat) (b : Nat) : Nat :=
  crcTableEntry poly ((reg % 256) ^^^ (b % 256)) ^^^ reg / 256

/-- Go's `crc32.Update(crc, tab, p)`: it takes and returns the finalized
value, inverting the register at both ends. -/
def crc32GoUpdate (poly : Nat) (crc : Nat) (data : List Nat) : Nat :=
  compl32 (data.foldl (crcByteStep poly) (compl32 crc))

/-- `crypto.CRC32Partial` from the Go source: the C-style raw register is
recovered by inverting Go's finalized `Update` at both ends
(`^crc32.Update(^crc, crc32IEEETable, data)`). -/
def CRC32Partial (data : List Nat) (crc : Nat) : Nat :=
  compl32 (crc32GoUpdate ieeePoly (compl32 crc) data)

/-- `crypto.ComputeCRC32` from the Go source. -/
def ComputeCRC32 (data : List Nat) : Nat :=
  CRC32Partial data 0xffffffff ^^^ 0xffffffff

/-- `crypto.CRC32CPartial` from the Go source (Castagnoli table). -/
def CRC32CPartial (data : List Nat) (crc : Nat) : Nat :=
  compl32 (crc32GoUpdate castagnoliPoly (compl32 crc) data)

/-- `crypto.ComputeCRC32C` from the Go source. -/
def ComputeCRC32C (data : List Nat) : Nat :=
  CRC32CPartial data 0xffffffff ^^^ 0xffffffff

theorem compl32_compl32 (x : Nat) : compl32 (compl32 x) = x := by
  simp [compl32, Nat.xor_assoc]

theorem crc32Partial_eq_foldl (poly : Nat) (data : List Nat) (crc : Nat) :
    compl32 (crc32GoUpdate poly (compl32 crc) data) =
      data.foldl (crcByteStep poly) crc := by
  simp [crc32GoUpdate, compl32_compl32]

/-- C9: the single-shot CRCs finalize the partial state seeded with all-ones
by a final all-ones XOR, and the partial state composes over concatenation,
both for CRC-32/IEEE and CRC-32C. -/
theorem crc32_partial_laws :
    (∀ x, ComputeCRC32 x = CRC32Partial x 0xffffffff ^^^ 0xffffffff)
    ∧ (∀ x, ComputeCRC32C x = CRC32CPartial x 0xffffffff ^^^ 0xffffffff)
    ∧ (∀ a b s, CRC32Partial (a ++ b) s = CRC32Partial b ( CRC32Partial a s))
    ∧ (∀ a b s, CRC32CPartial (a ++ b) s = CRC32CPartial b ( CRC32CPartial a s)) := by
  refine ⟨fun _ => rfl, fun _ => rfl, ?_, ?_⟩ <;>
    intro a b s <;>
    simp [CRC32Partial, CRC32CPartial, crc32Partial_eq_foldl, List.foldl_append]

/-- Sanity check against the standard test vector
`ComputeCRC32("123456789") = 0xcbf43926` (scenario S2 of the spec). -/
theorem crc32_kat :
    ComputeCRC32 [49, 50, 51, 52, 53, 54, 55, 56, 57] = 0xcbf43926 := by decide

/-- Sanity check `ComputeCRC32C("123456789") = 0xe3069283` (S2). -/
theorem crc32c_kat :
    ComputeCRC32C [49, 50, 51, 52, 53, 54, 55, 56, 57] = 0xe3069283 := by decide

/-- C1: full behavioural characterization of `ParseMTProtoPacket`.
Frames shorter than 28 bytes or of length not divisible by 4 are rejected;
a non-zero auth-key id yields the encrypted classification exactly when the
frame has at least 56 bytes; with a zero auth-key id the DH-handshake
classification is produced if and only if the signed inner length and
function code checks pass; every other case is a bad-frame error. -/
theorem parseMTProtoPacket_spec (frame : List Nat) :
    ((frame.length < 28 ∨ frame.length % 4 ≠ 0) →
      ∃ e, ParseMTProtoPacket frame = .error e)
    ∧ (28 ≤ frame.length → frame.length % 4 = 0 → leRead frame 0 8 ≠ 0 →
        (56 ≤ frame.length →
          ParseMTProtoPacket frame =
            .ok ⟨.encrypted, leRead frame 0 8, 0, 0, frame.length⟩)
        ∧ (frame.length < 56 → ∃ e, ParseMTProtoPacket frame = .error e))
    ∧ (28 ≤ frame.length → frame.length % 4 = 0 → leRead frame 0 8 = 0 →
        (toInt32 (leRead frame 16 4) + 20 ≤ (frame.length : Int) →
         20 ≤ toInt32 (leRead frame 16 4) →
         IsDHHandshakeFunction (leRead frame 20 4) = true →
          ParseMTProtoPacket frame =
            .ok ⟨.dhHandshake, 0, toInt32 (leRead frame 16 4),
                 leRead frame 20 4, frame.length⟩)
        ∧ (¬ (toInt32 (leRead frame 16 4) + 20 ≤ (frame.length : Int)
              ∧ 20 ≤ toInt32 (leRead frame 16 4)
              ∧ IsDHHandshakeFunction (leRead frame 20 4) = true) →
           ∃ e, ParseMTProtoPacket frame = .error e)) := by
  refine ⟨?_, ?_, ?_⟩
  · intro hbad
    exact ⟨ParseError.invalidFrameLength, by simp [ParseMTProtoPacket, hbad]⟩
  · intro h28 h4 hak
    have hcond : ¬ (frame.length < 28 ∨ frame.length % 4 ≠ 0) := by omega
    constructor
    · intro h56
      simp [ParseMTProtoPacket, hcond, hak]
      omega
    · intro h56
      exact ⟨ParseError.invalidEncryptedLength,
        by simp [ParseMTProtoPacket, hcond, hak, h56]⟩
  · intro h28 h4 hak
    have hcond : ¬ (frame.length < 28 ∨ frame.length % 4 ≠ 0) := by omega
    constructor
    · intro hinner h20 hfn
      have hlt : ¬ ((frame.length : Int) < toInt32 (leRead frame 16 4) + 20) := by
        omega
      have h20n : ¬ (toInt32 (leRead frame 16 4) < 20) := by omega
      simp [ParseMTProtoPacket, hcond, hak, hlt, h20n, hfn]
    · intro hnot
      by_cases hA : toInt32 (leRead frame 16 4) + 20 ≤ (frame.length : Int)
      · by_cases hB : 20 ≤ toInt32 (leRead frame 16 4)
        · have hC : IsDHHandshakeFunction (leRead frame 20 4) = false := by
            rcases Bool.eq_false_or_eq_true (IsDHHandshakeFunction (leRead frame 20 4))
              with h | h
            · exact absurd ⟨hA, hB, h⟩ hnot
            · exact h
          have hlt : ¬ ((frame.length : Int) < toInt32 (leRead frame 16 4) + 20) := by
            omega
          have h20n : ¬ (toInt32 (leRead frame 16 4) < 20) := by omega
          exact ⟨ParseError.badFunction,
            by simp [ParseMTProtoPacket, hcond, hak, hlt, h20n, hC]⟩
        · have hlt : ¬ ((frame.length : Int) < toInt32 (leRead frame 16 4) + 20) := by
            omega
          exact ⟨ParseError.badInnerLength,
            by simp [ParseMTProtoPacket, hcond, hak, hlt]; omega⟩
      · exact ⟨ParseError.badInnerLengthMax,
          by simp [ParseMTProtoPacket, hcond, hak]; omega⟩

/-- A 40-byte zero-padded frame carrying inner length 20 and the `req_pq`
function code at bytes [20..24) (scenario S1 of the spec). -/
def hsFrame : List Nat :=
  List.replicate 16 0 ++ [20, 0, 0, 0] ++ [0x78, 0x97, 0x46, 0x60]
    ++ List.replicate 16 0

/-- Witness for C1: the theorem applied to the concrete 40-byte handshake
frame classifies it as a DH handshake with function `req_pq`. -/
theorem parseMTProtoPacket_spec_witness :
    ParseMTProtoPacket hsFrame =
      .ok ⟨.dhHandshake, 0, 20, 0x60469778, 40⟩ := by
  have h := ((parseMTProtoPacket_spec hsFrame).2.2 (by decide) (by decide)
    (by decide)).1 (by decide) (by decide) (by decide)
  rw [h]
  simp only [Except.ok.injEq]
  decide

/-- The fixed 2048-bit Diffie-Hellman prime `rpcDHPrime` from the Go source,
as its big-endian byte sequence. -/
def rpcDHPrime : List Nat := [
    0x89, 0x52, 0x13, 0x1b, 0x1e, 0x3a, 0x69, 0xba,
    0x5f, 0x85, 0xcf, 0x8b, 0xd2, 0x66, 0xc1, 0x2b,
    0x13, 0x83, 0x16, 0x13, 0xbd, 0x2a, 0x4e, 0xf8,
    0x35, 0xa4, 0xd5, 0x3f, 0x9d, 0xbb, 0x42, 0x48,
    0x2d, 0xbd, 0x46, 0x2b, 0x31, 0xd8, 0x6c, 0x81,
    0x6c, 0x59, 0x77, 0x52, 0x0f, 0x11, 0x70, 0x73,
    0x9e, 0xd2, 0xdd, 0xd6, 0xd8, 0x1b, 0x9e, 0xb6,
    0x5f, 0xaa, 0xac, 0x14, 0x87, 0x53, 0xc9, 0xe4,
    0xf0, 0x72, 0xdc, 0x11, 0xa4, 0x92, 0x73, 0x06,
    0x83, 0xfa, 0x00, 0x67, 0x82, 0x6b, 0x18, 0xc5,
    0x1d, 0x7e, 0xcb, 0xa5, 0x2b, 0x82, 0x60, 0x75,
    0xc0, 0xb9, 0x55, 0xe5, 0xac, 0xaf, 0xdd, 0x74,
    0xc3, 0x79, 0x5f, 0xd9, 0x52, 0x0b, 0x48, 0x0f,
    0x3b, 0xe3, 0xba, 0x06, 0x65, 0x33, 0x8a, 0x49,
    0x8c, 0xa5, 0xda, 0xf1, 0x01, 0x76, 0x05, 0x09,
    0xa3, 0x8c, 0x49, 0xe3, 0x00, 0x74, 0x64, 0x08,
    0x77, 0x4b, 0xb3, 0xed, 0x26, 0x18, 0x1a, 0x64,
    0x55, 0x76, 0x6a, 0xe9, 0x49, 0x7b, 0xb9, 0xc3,
    0xa3, 0xad, 0x5c, 0xba, 0xf7, 0x6b, 0x73, 0x84,
    0x5f, 0xbb, 0x96, 0xbb, 0x6d, 0x0f, 0x68, 0x4f,
    0x95, 0xd2, 0xd3, 0x9c, 0xcb, 0xb4, 0xa9, 0x04,
    0xfa, 0xb1, 0xde, 0x43, 0x49, 0xce, 0x1c, 0x20,
    0x87, 0xb6, 0xc9, 0x51, 0xed, 0x99, 0xf9, 0x52,
    0xe3, 0x4f, 0xd1, 0xa3, 0xfd, 0x14, 0x83, 0x35,
    0x75, 0x41, 0x47, 0x29, 0xa3, 0x8b, 0xe8, 0x68,
    0xa4, 0xf9, 0xec, 0x62, 0x3a, 0x5d, 0x24, 0x62,
    0x1a, 0xba, 0x01, 0xb2, 0x55, 0xc7, 0xe8, 0x38,
    0x5d, 0x16, 0xac, 0x93, 0xb0, 0x2d, 0x2a, 0x54,
    0x0a, 0x76, 0x42, 0x98, 0x2d, 0x22, 0xad, 0xa3,
    0xcc, 0xde, 0x5c, 0x8d, 0x26, 0x6f, 0xaa, 0x25,
    0xdd, 0x2d, 0xe9, 0xf6, 0xd4, 0x91, 0x04, 0x16,
    0x2f, 0x68, 0x5c, 0x45, 0xfe, 0x34, 0xdd, 0xab]

/-- The Go source's first loop in `DH.IsGoodPublicValue`: scan for a
non-zero byte, with early exit. -/
def anyNonZero : List Nat → Bool
  | [] => false
  | b :: rest => if b ≠ 0 then true else anyNonZero rest

/-- The Go source's second loop in `DH.IsGoodPublicValue`: big-endian
lexicographic strictly-less comparison with early exit, `false` when every
compared byte is equal. -/
def lexLess : List Nat → List Nat → Bool
  | a :: as, b :: bs => if a > b then false else if a < b then true else lexLess as bs
  | _, _ => false

/-- `DH.IsGoodPublicValue` from the Go source: the value must be exactly
256 bytes, have a non-zero byte among its top 8 bytes, and its top 8 bytes
must compare strictly below the prime's top 8 bytes (the loop inspects only
`i < 8`). -/
def IsGoodPublicValue (data : List Nat) : Bool :=
  if data.length ≠ 256 then false
  else if ¬ anyNonZero (data.take 8) then false
  else lexLess (data.take 8) (rpcDHPrime.take 8)

/-- The value of a byte sequence read as a big-endian integer. -/
def beNat : List Nat → Nat
  | [] => 0
  | b :: rest => b * 256 ^ rest.length + beNat rest

theorem beNat_lt_pow (l : List Nat) (h : ∀ b ∈ l, b < 256) :
    beNat l < 256 ^ l.length := by
  induction l with
  | nil => simp [beNat]
  | cons b rest ih =>
    have hb : b < 256 := h b (List.mem_cons_self b rest)
    have hrest := ih fun x hx => h x (List.mem_cons_of_mem b hx)
    have hstep : (b + 1) * 256 ^ rest.length ≤ 256 * 256 ^ rest.length :=
      mul_le_mul_right' (by omega) _
    calc beNat (b :: rest) = b * 256 ^ rest.length + beNat rest := rfl
      _ < b * 256 ^ rest.length + 256 ^ rest.length := by omega
      _ = (b + 1) * 256 ^ rest.length := by ring
      _ ≤ 256 * 256 ^ rest.length := hstep
      _ = 256 ^ (b :: rest).length := by
          simp [List.length_cons, pow_succ]
          ring

theorem lexLess_iff_beNat (as : List Nat) :
    ∀ bs : List Nat, as.length = bs.length →
      (∀ a ∈ as, a < 256) → (∀ b ∈ bs, b < 256) →
      (lexLess as bs = true ↔ beNat as < beNat bs) := by
  induction as with
  | nil =>
    intro bs hlen _ _
    have : bs = [] := List.eq_nil_of_length_eq_zero hlen.symm
    subst this
    simp [lexLess, beNat]
  | cons a as ih =>
    intro bs hlen ha hb
    cases bs with
    | nil => simp at hlen
    | cons b bs =>
      have hlen2 : as.length = bs.length := by simpa using hlen
      have ha2 : ∀ x ∈ as, x < 256 := fun x hx => ha x (List.mem_cons_of_mem a hx)
      have hb2 : ∀ x ∈ bs, x < 256 := fun x hx => hb x (List.mem_cons_of_mem b hx)
      have hxa := beNat_lt_pow as ha2
      have hxb := beNat_lt_pow bs hb2
      rcases lt_trichotomy a b with hab | hab | hab
      · have hlt : beNat (a :: as) < beNat (b :: bs) := by
          calc beNat (a :: as) = a * 256 ^ as.length + beNat as := rfl
            _ < a * 256 ^ as.length + 256 ^ as.length := by omega
            _ = (a + 1) * 256 ^ as.length := by ring
            _ ≤ b * 256 ^ as.length := mul_le_mul_right' (by omega) _
            _ = b * 256 ^ bs.length := by rw [hlen2]
            _ ≤ b * 256 ^ bs.length + beNat bs := Nat.le_add_right _ _
            _ = beNat (b :: bs) := rfl
        simp [lexLess, hab, Nat.lt_asymm hab, hlt]
      · subst hab
        have : beNat (a :: as) < beNat (a :: bs) ↔ beNat as < beNat bs := by
          simp [beNat, hlen2]
        rw [show lexLess (a :: as) (a :: bs) = lexLess as bs by simp [lexLess],
          this]
        exact ih bs hlen2 ha2 hb2
      · have hge : beNat (b :: bs) < beNat (a :: as) := by
          calc beNat (b :: bs) = b * 256 ^ bs.length + beNat bs := rfl
            _ < b * 256 ^ bs.length + 256 ^ bs.length := by omega
            _ = (b + 1) * 256 ^ bs.length := by ring
            _ ≤ a * 256 ^ bs.length := mul_le_mul_right' (by omega) _
            _ = a * 256 ^ as.length := by rw [hlen2]
            _ ≤ a * 256 ^ as.length + beNat as := Nat.le_add_right _ _
            _ = beNat (a :: as) := rfl
        simp [lexLess, hab, Nat.lt_asymm hab, Nat.not_lt.mpr (Nat.le_of_lt hge)]

/-- C7 (amended): `IsGoodPublicValue` accepts exactly the 256-byte values
with a non-zero byte among the top 8 whose top 8 bytes, read big-endian,
are strictly below the prime's top 8 bytes; values whose top 8 bytes equal
the prime's are rejected even when the full value is below the prime. -/
theorem isGoodPublicValue_amended (data : List Nat) (hb : ∀ b ∈ data, b < 256) :
    IsGoodPublicValue data = true ↔
      data.length = 256 ∧ anyNonZero (data.take 8) = true
        ∧ beNat (data.take 8) < beNat (rpcDHPrime.take 8) := by
  unfold IsGoodPublicValue
  by_cases hlen : data.length = 256
  · by_cases hnz : anyNonZero (data.take 8) = true
    · have hlt : (data.take 8).length = (rpcDHPrime.take 8).length := by
        rw [List.length_take, List.length_take, hlen]
        decide
      have hbt : ∀ b ∈ data.take 8, b < 256 :=
        fun b hb2 => hb b (List.take_subset _ _ hb2)
      have hpt : ∀ b ∈ rpcDHPrime.take 8, b < 256 := by decide
      simp only [hlen, hnz]
      simpa using lexLess_iff_beNat (data.take 8) (rpcDHPrime.take 8) hlt hbt hpt
    · simp [hlen, hnz]
  · simp [hlen]

/-- A value equal to the prime's top 8 bytes followed by 248 zero bytes:
numerically below the prime, but rejected by the code. -/
def dhCexValue : List Nat := rpcDHPrime.take 8 ++ List.replicate 248 0

/-- Counterexample for C7: `dhCexValue` is a 256-byte value with non-zero
top bytes that is strictly below the prime as a big-endian integer, yet
`IsGoodPublicValue` returns `false` for it, because the code compares only
the top 8 bytes and treats equality there as rejection. -/
theorem isGoodPublicValue_counterexample :
    IsGoodPublicValue dhCexValue = false
    ∧ dhCexValue.length = 256
    ∧ anyNonZero (dhCexValue.take 8) = true
    ∧ beNat dhCexValue < beNat rpcDHPrime := by decide

/-- A clearly good value: 0x88 followed by 255 zero bytes. -/
def dhGoodValue : List Nat := 0x88 :: List.replicate 255 0

/-- Witness for C7 (amended): the amended theorem applied to `dhGoodValue`
shows the code accepts it. -/
theorem isGoodPublicValue_amended_witness :
    IsGoodPublicValue dhGoodValue = true :=
  (isGoodPublicValue_amended dhGoodValue (by decide)).mpr (by decide)

/-- The mutable state of `fixedWindowRateLimiter` from the Go source:
the current Unix-second window and the number of allowed events in it. -/
structure RLState where
  windowSec : Int
  count : Nat
  deriving DecidableEq, Repr

/-- The zero value the Go limiter starts from. -/
def rlInit : RLState := ⟨0, 0⟩

/-- `fixedWindowRateLimiter` from the Go source: configured limit plus
window state. -/
structure FixedWindowRateLimiter where
  limit : Int
  st : RLState
  deriving DecidableEq, Repr

/-- `newFixedWindowRateLimiter` from the Go source: a non-positive limit
yields the nil limiter (unlimited). -/
def newFixedWindowRateLimiter (limit : Int) : Option FixedWindowRateLimiter :=
  if limit ≤ 0 then none else some ⟨limit, rlInit⟩

/-- The body of `fixedWindowRateLimiter.Allow` from the Go source, acting
on the window state: reset the window on first use or on a different
second, deny at the limit, count the event otherwise. -/
def rlStep (limit : Int) (st : RLState) (sec : Int) : Bool × RLState :=
  if st.count = 0 ∨ st.windowSec ≠ sec then (true, ⟨sec, 1⟩)
  else if limit ≤ (st.count : Int) then (false, st)
  else (true, ⟨st.windowSec, st.count + 1⟩)

/-- `Allow` on a possibly-nil limiter (the nil receiver always allows). -/
def limiterAllow : Option FixedWindowRateLimiter → Int → Bool × Option FixedWindowRateLimiter
  | none, _ => (true, none)
  | some l, sec => ((rlStep l.limit l.st sec).1, some ⟨l.limit, (rlStep l.limit l.st sec).2⟩)

/-- The limiter state after a sequence of `Allow(sec)` calls. -/
def limiterAfter (lim : Option FixedWindowRateLimiter) : List Int → Option FixedWindowRateLimiter
  | [] => lim
  | sec :: rest => limiterAfter (limiterAllow lim sec).2 rest

/-- The results of a sequence of `Allow(sec)` calls, in order. -/
def limiterRun (lim : Option FixedWindowRateLimiter) : List Int → List Bool
  | [] => []
  | sec :: rest => (limiterAllow lim sec).1 :: limiterRun (limiterAllow lim sec).2 rest

/-- How many of the (second, result) pairs are allowed events lying in the
Unix second `s`. -/
def allowedInSecond (pairs : List (Int × Bool)) (s : Int) : Nat :=
  (pairs.filter fun p => p.1 == s && p.2).length

theorem limiterAfter_append (lim : Option FixedWindowRateLimiter)
    (xs ys : List Int) :
    limiterAfter lim (xs ++ ys) = limiterAfter (limiterAfter lim xs) ys := by
  induction xs generalizing lim with
  | nil => rfl
  | cons x rest ih => simp [limiterAfter, ih]

theorem limiterRun_append (lim : Option FixedWindowRateLimiter)
    (xs ys : List Int) :
    limiterRun lim (xs ++ ys) = limiterRun lim xs ++ limiterRun (limiterAfter lim xs) ys := by
  induction xs generalizing lim with
  | nil => rfl
  | cons x rest ih => simp [limiterRun, limiterAfter, ih]

theorem limiterRun_length (lim : Option FixedWindowRateLimiter)
    (secs : List Int) : (limiterRun lim secs).length = secs.length := by
  induction secs generalizing lim with
  | nil => rfl
  | cons x rest ih => simp [limiterRun, ih]

theorem allowedInSecond_append (ps qs : List (Int × Bool)) (s : Int) :
    allowedInSecond (ps ++ qs) s = allowedInSecond ps s + allowedInSecond qs s := by
  simp [allowedInSecond, List.filter_append]

theorem allowedInSecond_eq_zero (ps : List (Int × Bool)) (s : Int)
    (h : ∀ p ∈ ps, p.1 ≠ s) : allowedInSecond ps s = 0 := by
  have : ps.filter (fun p => p.1 == s && p.2) = [] := by
    rw [List.filter_eq_nil_iff]
    intro p hp
    simp [h p hp]
  simp [allowedInSecond, this]

/-- The window invariant maintained by a monotone call sequence: the stored
count is exactly the number of allowed events in the current window, which
is the latest second seen. -/
theorem rl_run_invariant (limit : Int) (hL : 0 < limit) (pre : List Int)
    (hs : pre.Sorted (· ≤ ·)) :
    ∃ st : RLState,
      limiterAfter (some ⟨limit, rlInit⟩) pre = some ⟨limit, st⟩
      ∧ ((pre = [] ∧ st = rlInit)
         ∨ (1 ≤ st.count ∧ (st.count : Int) ≤ limit
            ∧ st.windowSec ∈ pre
            ∧ (∀ s ∈ pre, s ≤ st.windowSec)
            ∧ st.count =
                allowedInSecond (pre.zip (limiterRun (some ⟨limit, rlInit⟩) pre))
                  st.windowSec)) := by
  induction pre using List.reverseRecOn with
  | nil => exact ⟨rlInit, rfl, Or.inl ⟨rfl, rfl⟩⟩
  | append_singleton xs a ih =>
    have hpair := (List.pairwise_append.mp hs)
    have hxs : xs.Sorted (· ≤ ·) := hpair.1
    have hle : ∀ s ∈ xs, s ≤ a := fun s hsx => hpair.2.2 s hsx a (by simp)
    obtain ⟨st, hafter, hinv⟩ := ih hxs
    have hafter2 : limiterAfter (some ⟨limit, rlInit⟩) (xs ++ [a])
        = (limiterAllow (some ⟨limit, st⟩) a).2 := by
      rw [limiterAfter_append, hafter]
      rfl
    have hrun2 : limiterRun (some ⟨limit, rlInit⟩) (xs ++ [a])
        = limiterRun (some ⟨limit, rlInit⟩) xs ++ [(limiterAllow (some ⟨limit, st⟩) a).1] := by
      rw [limiterRun_append, hafter]
      rfl
    have hzip : (xs ++ [a]).zip (limiterRun (some ⟨limit, rlInit⟩) (xs ++ [a]))
        = xs.zip (limiterRun (some ⟨limit, rlInit⟩) xs)
            ++ [(a, (limiterAllow (some ⟨limit, st⟩) a).1)] := by
      rw [hrun2, List.zip_append (limiterRun_length _ _).symm]
      rfl
    rcases hinv with ⟨hxsnil, hstinit⟩ | ⟨hc1, hcl, hmem, hupper, hcount⟩
    · subst hxsnil
      subst hstinit
      refine ⟨⟨a, 1⟩, ?_, Or.inr ?_⟩
      · rw [hafter2]
        rfl
      · refine ⟨le_refl 1, by exact_mod_cast hL, by simp, by simp, ?_⟩
        simp [hzip, limiterAllow, limiterRun, rlStep, rlInit, allowedInSecond]
    · by_cases hsec : st.windowSec = a
      · have hguard : ¬ (st.count = 0 ∨ st.windowSec ≠ a) := by
          push_neg
          exact ⟨by omega, hsec⟩
        by_cases hfull : limit ≤ (st.count : Int)
        · refine ⟨st, ?_, Or.inr ?_⟩
          · rw [hafter2]
            simp [limiterAllow, rlStep, hguard, hfull]
          · refine ⟨hc1, hcl, by simp [hmem], ?_, ?_⟩
            · intro s hsmem
              rcases List.mem_append.mp hsmem with h | h
              · exact hupper s h
              · simp at h
                omega
            · rw [hzip, allowedInSecond_append]
              have hres : (limiterAllow (some ⟨limit, st⟩) a).1 = false := by
                simp [limiterAllow, rlStep, hguard, hfull]
              rw [hres]
              simp [allowedInSecond, hcount]
        · refine ⟨⟨st.windowSec, st.count + 1⟩, ?_, Or.inr ?_⟩
          · rw [hafter2]
            simp [limiterAllow, rlStep, hguard, hfull]
          · refine ⟨by dsimp only; omega, by dsimp only; push_cast; omega,
              by simp [hmem], ?_, ?_⟩
            · intro s hsmem
              dsimp only
              rcases List.mem_append.mp hsmem with h | h
              · exact hupper s h
              · simp at h
                omega
            · rw [hzip, allowedInSecond_append]
              have hres : (limiterAllow (some ⟨limit, st⟩) a).1 = true := by
                simp [limiterAllow, rlStep, hguard, hfull]
              rw [hres]
              simp [allowedInSecond, hsec, hcount]
      · have hguard : st.count = 0 ∨ st.windowSec ≠ a := Or.inr hsec
        refine ⟨⟨a, 1⟩, ?_, Or.inr ?_⟩
        · rw [hafter2]
          simp [limiterAllow, rlStep, hguard]
        · refine ⟨le_refl 1, by exact_mod_cast hL, by simp, ?_, ?_⟩
          · intro s hsmem
            dsimp only
            rcases List.mem_append.mp hsmem with h | h
            · exact hle s h
            · simp at h
              omega
          · rw [hzip, allowedInSecond_append]
            have hzero : allowedInSecond
                (xs.zip (limiterRun (some ⟨limit, rlInit⟩) xs)) a = 0 := by
              apply allowedInSecond_eq_zero
              intro p hp
              have hpfst : p.1 ∈ xs := (List.of_mem_zip hp).1
              intro heq
              have h1 : p.1 ≤ st.windowSec := hupper p.1 hpfst
              have h2 : st.windowSec ≤ a := hle _ hmem
              omega
            have hres : (limiterAllow (some ⟨limit, st⟩) a).1 = true := by
              simp [limiterAllow, rlStep, hguard]
            rw [hres, hzero]
            simp [allowedInSecond]

/-- Counterexample for C4: with limit 1, calls at seconds 1, 2, 1 are all
allowed, although the third call shares its Unix second with the first
allowed event, so the total allowed in second 1 becomes 2 > 1.  The code
counts only the current window, so a non-monotone clock defeats the
claimed per-second bound. -/
theorem rateLimiter_claim_counterexample :
    (limiterAllow (limiterAfter (newFixedWindowRateLimiter 1) [1, 2]) 1).1 = true
    ∧ limiterRun (newFixedWindowRateLimiter 1) [1, 2] = [true, true]
    ∧ ¬ ((allowedInSecond (List.zip ([1, 2] : List Int)
          (limiterRun (newFixedWindowRateLimiter 1) [1, 2])) 1 : Int) + 1 ≤ 1) := by
  decide

/-- C4 (amended): a non-positive limit always allows; and for a positive
limit, provided the `now` arguments arrive with non-decreasing Unix
seconds, a call is allowed exactly when it, together with the earlier
allowed events of the same Unix second, stays within the limit. -/
theorem rateLimiter_amended :
    (∀ limit : Int, limit ≤ 0 → ∀ secs : List Int,
        limiterRun (newFixedWindowRateLimiter limit) secs = secs.map fun _ => true)
    ∧ (∀ limit : Int, 0 < limit → ∀ pre : List Int, ∀ sec : Int,
        (pre ++ [sec]).Sorted (· ≤ ·) →
        ((limiterAllow (limiterAfter (newFixedWindowRateLimiter limit) pre) sec).1 = true
          ↔ (allowedInSecond (pre.zip (limiterRun (newFixedWindowRateLimiter limit) pre)) sec : Int) + 1
              ≤ limit)) := by
  constructor
  · intro limit hlim secs
    have hnone : newFixedWindowRateLimiter limit = none := by
      simp [newFixedWindowRateLimiter, hlim]
    rw [hnone]
    induction secs with
    | nil => rfl
    | cons x rest ih => simpa [limiterRun, limiterAllow] using ih
  · intro limit hL pre sec hs
    have hsome : newFixedWindowRateLimiter limit = some ⟨limit, rlInit⟩ := by
      simp [newFixedWindowRateLimiter]
      omega
    rw [hsome]
    have hpair := List.pairwise_append.mp hs
    have hspre : pre.Sorted (· ≤ ·) := hpair.1
    have hle : ∀ s ∈ pre, s ≤ sec := fun s hsx => hpair.2.2 s hsx sec (by simp)
    obtain ⟨st, hafter, hinv⟩ := rl_run_invariant limit hL pre hspre
    rw [hafter]
    rcases hinv with ⟨hnil, hinit⟩ | ⟨hc1, hcl, hmem, hupper, hcount⟩
    · subst hnil
      subst hinit
      simp [limiterAllow, rlStep, rlInit, allowedInSecond]
      omega
    · by_cases hsec : st.windowSec = sec
      · have hguard : ¬ (st.count = 0 ∨ st.windowSec ≠ sec) := by
          push_neg
          exact ⟨by omega, hsec⟩
        by_cases hfull : limit ≤ (st.count : Int)
        · simp only [limiterAllow, rlStep, if_neg hguard, if_pos hfull]
          rw [← hsec, ← hcount]
          simp
          omega
        · simp only [limiterAllow, rlStep, if_neg hguard, if_neg hfull]
          rw [← hsec, ← hcount]
          simp
          omega
      · have hguard : st.count = 0 ∨ st.windowSec ≠ sec := Or.inr hsec
        simp only [limiterAllow, rlStep, if_pos hguard]
        have hzero : allowedInSecond
            (pre.zip (limiterRun (some ⟨limit, rlInit⟩) pre)) sec = 0 := by
          apply allowedInSecond_eq_zero
          intro p hp
          have hpfst : p.1 ∈ pre := (List.of_mem_zip hp).1
          intro heq
          have h1 : p.1 ≤ st.windowSec := hupper p.1 hpfst
          have h2 : st.windowSec ≤ sec := hle _ hmem
          omega
        rw [hzero]
        simp
        omega

/-- Witness for C4 (amended): with limit 2 and three calls inside the same
second, the theorem instantiated at the monotone trace `[5, 5]` followed by
`5` forces the third call to be denied. -/
theorem rateLimiter_amended_witness :
    (limiterAllow (limiterAfter (newFixedWindowRateLimiter 2) [5, 5]) 5).1 = false := by
  have h := rateLimiter_amended.2 2 (by decide) [5, 5] 5 (by decide)
  have hnot : ¬ ((allowedInSecond (List.zip ([5, 5] : List Int)
      (limiterRun (newFixedWindowRateLimiter 2) [5, 5])) 5 : Int) + 1 ≤ 2) := by decide
  rcases Bool.eq_false_or_eq_true
      ((limiterAllow (limiterAfter (newFixedWindowRateLimiter 2) [5, 5]) 5).1) with hb | hb
  · exact absurd (h.mp hb) hnot
  · exact hb

/-- `config.Target` from the Go source. -/
structure Target where
  clusterID : Int
  host : String
  port : Int
  minConnections : Int
  maxConnections : Int
  deriving DecidableEq, Repr

/-- The cluster table and default-cluster id of `proxy.Router`
(the round-robin pointer is not involved in the random health-aware
selection path modelled here). -/
structure RouterState where
  defaultClusterID : Int
  clusters : Int → Option (List Target)

/-- The error outcomes of the router's selection path: the
`cluster %d has no targets` error of `getTargetsLocked` and the
`no healthy targets available` error of `ChooseProxyTargetDetailed`. -/
inductive RouterError where
  | clusterHasNoTargets
  | noHealthyTargets
  deriving DecidableEq, Repr

/-- `proxy.ChooseResult` from the Go source. -/
structure ChooseResult where
  target : Target
  requestedCluster : Int
  resolvedClusterID : Int
  usedDefault : Bool
  deriving DecidableEq, Repr

/-- `Router.getTargetsLocked` from the Go source: look the cluster up,
fall back to the default cluster when absent and fallback is enabled, fail
when the resolved cluster is absent or empty, and report `usedDefault`
except when the resolved id equals the requested id. -/
def getTargetsLocked (r : RouterState) (clusterID : Int) (fallbackDefault : Bool) :
    Except RouterError (List Target × Int × Bool) :=
  match r.clusters clusterID with
  | some targets =>
    if targets.length = 0 then .error .clusterHasNoTargets
    else .ok (targets, clusterID, false)
  | none =>
    if fallbackDefault then
      match r.clusters r.defaultClusterID with
      | some targets =>
        if targets.length = 0 then .error .clusterHasNoTargets
        else if r.defaultClusterID = clusterID then .ok (targets, r.defaultClusterID, false)
        else .ok (targets, r.defaultClusterID, true)
      | none => .error .clusterHasNoTargets
    else .error .clusterHasNoTargets

/-- The bounded random-pick loop of `Router.ChooseProxyTargetDetailed`:
attempt `fuel` uniform picks (the injectable random source is modelled as
the pick sequence `picks`, reduced modulo the target count exactly as
`rnd.Intn(len(targets))` guarantees), returning the first healthy target. -/
def chooseAttempts (targets : List Target) (isHealthy : Target → Bool)
    (picks : Nat → Nat) : Nat → Nat → Option Target
  | _, 0 => none
  | i, fuel + 1 =>
    match targets.get? (picks i % targets.length) with
    | none => none
    | some t => if isHealthy t then some t else chooseAttempts targets isHealthy picks (i + 1) fuel

/-- `Router.ChooseProxyTargetDetailed` from the Go source: resolve the
cluster with default fallback, clamp non-positive attempts to 1, and run
the bounded random health-aware pick loop. -/
def ChooseProxyTargetDetailed (r : RouterState) (clusterID : Int) (attempts : Int)
    (isHealthy : Target → Bool) (picks : Nat → Nat) : Except RouterError ChooseResult :=
  match getTargetsLocked r clusterID true with
  | .error e => .error e
  | .ok (targets, resolvedClusterID, usedDefault) =>
    let att : Nat := if attempts ≤ 0 then 1 else attempts.toNat
    match chooseAttempts targets isHealthy picks 0 att with
    | some t => .ok ⟨t, clusterID, resolvedClusterID, usedDefault⟩
    | none => .error .noHealthyTargets

theorem chooseAttempts_all_unhealthy (targets : List Target)
    (isHealthy : Target → Bool) (picks : Nat → Nat)
    (h : ∀ t ∈ targets, isHealthy t = false) :
    ∀ fuel i, chooseAttempts targets isHealthy picks i fuel = none := by
  intro fuel
  induction fuel with
  | zero => intro i; rfl
  | succ n ih =>
    intro i
    unfold chooseAttempts
    cases hg : targets.get? (picks i % targets.length) with
    | none => rfl
    | some t =>
      have ht : t ∈ targets := List.get?_mem hg
      simp [h t ht, ih]

theorem getTargetsLocked_ok_inv (r : RouterState) (cid : Int)
    {targets : List Target} {resolved : Int} {ud : Bool}
    (h : getTargetsLocked r cid true = .ok (targets, resolved, ud)) :
    (ud = true ↔ r.clusters cid = none ∧ (r.clusters r.defaultClusterID).isSome = true)
    ∧ (r.clusters cid = none → resolved = r.defaultClusterID) := by
  unfold getTargetsLocked at h
  cases hcl : r.clusters cid with
  | some ts =>
    rw [hcl] at h
    by_cases hlen : ts.length = 0
    · simp [hlen] at h
    · simp [hlen] at h
      obtain ⟨-, -, h3⟩ := h
      refine ⟨?_, fun hnone => absurd hnone (by simp)⟩
      simp [← h3, hcl]
  | none =>
    rw [hcl] at h
    cases hdef : r.clusters r.defaultClusterID with
    | some ts =>
      rw [hdef] at h
      by_cases hlen : ts.length = 0
      · simp [hlen] at h
      · by_cases heq : r.defaultClusterID = cid
        · exact absurd (heq ▸ hdef) (by simp [hcl])
        · simp [hlen, heq] at h
          obtain ⟨-, h2, h3⟩ := h
          exact ⟨by simp [← h3, hcl, hdef], fun _ => h2.symm⟩
    | none =>
      rw [hdef] at h
      simp at h

/-- C3: whenever the random health-aware selection returns a result, its
`UsedDefault` flag is set exactly when the requested cluster id is absent
from the cluster table while the default cluster is present (in which case
the resolved cluster is the default one); and when every target of the
resolved cluster is unhealthy, the bounded attempts are exhausted and the
no-healthy-targets error is returned. -/
theorem chooseProxyTargetDetailed_spec (r : RouterState) (cid attempts : Int)
    (isHealthy : Target → Bool) (picks : Nat → Nat) :
    (∀ res, ChooseProxyTargetDetailed r cid attempts isHealthy picks = .ok res →
      (res.usedDefault = true
        ↔ r.clusters cid = none ∧ (r.clusters r.defaultClusterID).isSome = true)
      ∧ (r.clusters cid = none → res.resolvedClusterID = r.defaultClusterID))
    ∧ (∀ targets resolved ud,
        getTargetsLocked r cid true = .ok (targets, resolved, ud) →
        (∀ t ∈ targets, isHealthy t = false) →
        ChooseProxyTargetDetailed r cid attempts isHealthy picks
          = .error RouterError.noHealthyTargets) := by
  constructor
  · intro res hok
    unfold ChooseProxyTargetDetailed at hok
    cases hg : getTargetsLocked r cid true with
    | error e => rw [hg] at hok; exact absurd hok (by simp)
    | ok tri =>
      obtain ⟨targets, resolved, ud⟩ := tri
      rw [hg] at hok
      cases hch : chooseAttempts targets isHealthy picks 0
          (if attempts ≤ 0 then 1 else attempts.toNat) with
      | none => simp [hch] at hok
      | some t =>
        simp [hch] at hok
        obtain ⟨hinv1, hinv2⟩ := getTargetsLocked_ok_inv r cid hg
        rw [← hok]
        exact ⟨hinv1, hinv2⟩
  · intro targets resolved ud hg hunh
    unfold ChooseProxyTargetDetailed
    rw [hg]
    simp [chooseAttempts_all_unhealthy targets isHealthy picks hunh]

/-- A concrete router for the C3 witness: only cluster 0 (the default)
has a target. -/
def routerW : RouterState :=
  ⟨0, fun i => if i = 0 then some [⟨0, "h", 443, 1, 10⟩] else none⟩

/-- Witness for C3: requesting the absent cluster 7 with everything healthy
resolves to the default cluster with `UsedDefault = true`, exactly as the
theorem instantiates. -/
theorem chooseProxyTargetDetailed_spec_witness :
    ∃ res, ChooseProxyTargetDetailed routerW 7 5 (fun _ => true) (fun _ => 0) = .ok res
      ∧ res.usedDefault = true ∧ res.resolvedClusterID = 0 := by
  have hok : ChooseProxyTargetDetailed routerW 7 5 (fun _ => true) (fun _ => 0)
      = .ok ⟨⟨0, "h", 443, 1, 10⟩, 7, 0, true⟩ := by
    simp [ChooseProxyTargetDetailed, getTargetsLocked, routerW, chooseAttempts]
  have h := (chooseProxyTargetDetailed_spec routerW 7 5 (fun _ => true) (fun _ => 0)).1
    _ hok
  refine ⟨_, hok, h.1.mpr ?_, h.2 ?_⟩ <;> simp [routerW]

/-- `config.Cluster` from the Go source. -/
structure Cluster where
  id : Int
  targets : List Target
  deriving DecidableEq, Repr

/-- `config.Config` from the Go source. -/
structure Config where
  minConnections : Int
  maxConnections : Int
  timeoutMS : Int
  defaultClusterID : Int
  haveProxy : Bool
  targets : List Target
  clusters : List Cluster
  deriving DecidableEq, Repr

/-- `config.Snapshot` from the Go source (the load time is an integer
timestamp, the MD5 digest an opaque hex string). -/
structure Snapshot where
  config : Config
  loadedAt : Int
  bytes : Nat
  md5Hex : String
  sourcePath : String
  deriving DecidableEq, Repr

/-- The mutable fields of `config.Manager` that `Reload`/`Current` touch:
the current snapshot pointer, the last-error string and the call counters. -/
structure ManagerState where
  current : Option Snapshot
  lastErr : String
  checkCalls : Nat
  reloadCalls : Nat
  reloadSuccess : Nat
  deriving DecidableEq, Repr

/-- `Manager.Current` from the Go source: the stored snapshot and a
presence flag (the zero snapshot when absent). -/
def managerCurrent (m : ManagerState) : Snapshot × Bool :=
  match m.current with
  | none => (⟨⟨0, 0, 0, 0, false, [], []⟩, 0, 0, "", ""⟩, false)
  | some s => (s, true)

/-- `Manager.Reload` from the Go source.  Reading and parsing the file is
`Manager.Check`; its outcome (a parsed snapshot or an error string) is the
`checkResult` input here.  Only a successful check installs the snapshot
and clears the last error; a failed check only records the error. -/
def managerReload (m : ManagerState) (checkResult : Except String Snapshot) :
    Except String Snapshot × ManagerState :=
  let m1 := { m with reloadCalls := m.reloadCalls + 1, checkCalls := m.checkCalls + 1 }
  match checkResult with
  | .error e => (.error e, { m1 with lastErr := e })
  | .ok s => (.ok s, { m1 with current := some s, lastErr := "", reloadSuccess := m.reloadSuccess + 1 })

/-- C5: a failed `Reload` leaves `Current()` (snapshot and presence flag)
exactly as before; a successful `Reload` installs the new snapshot and
clears the last-error string. -/
theorem managerReload_spec (m : ManagerState) (checkResult : Except String Snapshot) :
    (∀ e, checkResult = .error e →
      managerCurrent (managerReload m checkResult).2 = managerCurrent m)
    ∧ (∀ s, checkResult = .ok s →
      (managerReload m checkResult).2.current = some s
      ∧ (managerReload m checkResult).2.lastErr = "") := by
  constructor
  · intro e he
    subst he
    rfl
  · intro s hs
    subst hs
    exact ⟨rfl, rfl⟩

/-- Witness for C5: a failing reload over a concrete one-snapshot state
leaves `Current` untouched, and a subsequent successful reload installs
the new snapshot. -/
theorem managerReload_spec_witness :
    managerCurrent (managerReload ⟨none, "", 0, 0, 0⟩ (.error "boom")).2
      = managerCurrent ⟨none, "", 0, 0, 0⟩
    ∧ (managerReload ⟨none, "", 0, 0, 0⟩
        (.ok ⟨⟨4, 8, 300, 0, true, [], []⟩, 1, 9, "d4", "p"⟩)).2.current
      = some ⟨⟨4, 8, 300, 0, true, [], []⟩, 1, 9, "d4", "p"⟩ :=
  ⟨(managerReload_spec ⟨none, "", 0, 0, 0⟩ (.error "boom")).1 "boom" rfl,
   ((managerReload_spec ⟨none, "", 0, 0, 0⟩
      (.ok ⟨⟨4, 8, 300, 0, true, [], []⟩, 1, 9, "d4", "p"⟩)).2 _ rfl).1⟩

/-- `proxy.targetIdentity` from the Go source: the equality key
(cluster id, host, port) of a target. -/
structure TargetIdentity where
  clusterID : Int
  host : String
  port : Int
  deriving DecidableEq, Repr

/-- `proxy.makeTargetIdentity` from the Go source. -/
def makeTargetIdentity (t : Target) : TargetIdentity :=
  ⟨t.clusterID, t.host, t.port⟩

/-- The health-map reconciliation loop of `Runtime.applyConfig` from the Go
source: build a fresh map over the new config's targets, copying the prior
health value when the identity was already tracked and defaulting to
healthy otherwise.  The map is modelled as a partial function from
identities to health values. -/
def applyConfigHealth (cfg : Config) (m : TargetIdentity → Option Bool) :
    TargetIdentity → Option Bool :=
  fun id =>
    if id ∈ cfg.targets.map makeTargetIdentity then some ((m id).getD true)
    else none

/-- C6: after `applyConfig(cfg)` the health map's key set is exactly the
identities of `cfg`'s targets; keys present in the old map (i.e. in the old
config, whose identities are the old key set) keep their prior value, new
keys start healthy, and vanished keys are dropped. -/
theorem applyConfigHealth_spec (cfgOld cfgNew : Config)
    (m : TargetIdentity → Option Bool)
    (hkeys : ∀ id, (m id).isSome = true ↔ id ∈ cfgOld.targets.map makeTargetIdentity) :
    ∀ id,
      ((applyConfigHealth cfgNew m id).isSome = true
        ↔ id ∈ cfgNew.targets.map makeTargetIdentity)
      ∧ (id ∈ cfgNew.targets.map makeTargetIdentity →
          id ∈ cfgOld.targets.map makeTargetIdentity →
          applyConfigHealth cfgNew m id = m id)
      ∧ (id ∈ cfgNew.targets.map makeTargetIdentity →
          id ∉ cfgOld.targets.map makeTargetIdentity →
          applyConfigHealth cfgNew m id = some true) := by
  intro id
  refine ⟨?_, ?_, ?_⟩
  · unfold applyConfigHealth
    by_cases hmem : id ∈ cfgNew.targets.map makeTargetIdentity <;> simp [hmem]
  · intro hnew hold
    have hsome : (m id).isSome = true := (hkeys id).mpr hold
    obtain ⟨v, hv⟩ := Option.isSome_iff_exists.mp hsome
    simp [applyConfigHealth, hnew, hv]
  · intro hnew hold
    have hnone : m id = none := by
      cases hm : m id with
      | none => rfl
      | some v => exact absurd ((hkeys id).mp (by simp [hm])) hold
    simp [applyConfigHealth, hnew, hnone]

/-- Witness for C6: starting from the empty map (the key set of an empty
old config), applying a one-target config tracks exactly that target and
initializes it healthy. -/
theorem applyConfigHealth_spec_witness :
    applyConfigHealth ⟨4, 8, 300, 0, true, [⟨2, "a", 80, 4, 8⟩], []⟩ (fun _ => none)
        (makeTargetIdentity ⟨2, "a", 80, 4, 8⟩) = some true := by
  have h := applyConfigHealth_spec ⟨4, 8, 300, 0, false, [], []⟩
    ⟨4, 8, 300, 0, true, [⟨2, "a", 80, 4, 8⟩], []⟩ (fun _ => none)
    (by intro id; simp) (makeTargetIdentity ⟨2, "a", 80, 4, 8⟩)
  exact h.2.2 (by simp) (by simp)

/-- `proxy.ForwardDecision` from the Go source. -/
structure ForwardDecision where
  target : Target
  requestedCluster : Int
  resolvedClusterID : Int
  usedDefault : Bool
  deriving DecidableEq, Repr

/-- `proxy.dataPlaneSession` from the Go source: the per-connection session
record the data plane keeps. -/
structure DPSession where
  state : SessionState
  lastSeenAt : Int
  packets : Nat
  deriving DecidableEq, Repr

/-- The error outcomes of `DataPlane.HandlePacketWithResponse`. -/
inductive DPError where
  | parseError
  | dhRateExceeded
  | connectionLimit
  | routeError
  | outboundError
  deriving DecidableEq, Repr

/-- A wrapping `uint64` counter increment (`atomic.Uint64.Add`). -/
def addU64 (c n : Nat) : Nat := (c + n) % 2 ^ 64

/-- The state of `proxy.DataPlane` from the Go source: the session map
(an association list keyed by connection id), the session limit, the DH
rate limiter and the `uint64` counters. -/
structure DPState where
  sessions : List (Int × DPSession)
  maxConnections : Int
  dhLimiter : Option FixedWindowRateLimiter
  sessionsCreated : Nat
  sessionsClosed : Nat
  packetsTotal : Nat
  packetsEncrypted : Nat
  packetsHandshake : Nat
  packetsDropped : Nat
  packetsParseErrors : Nat
  packetsRouteErrors : Nat
  packetsRejectedByLimit : Nat
  packetsRejectedByDH : Nat
  packetsOutboundErrors : Nat
  bytesTotal : Nat
  deriving DecidableEq, Repr

/-- `proxy.NewDataPlane` from the Go source: negative limits clamp to 0
(unlimited), a non-positive DH rate yields the nil limiter. -/
def NewDataPlane (maxConnections maxDHAcceptRate : Int) : DPState :=
  ⟨[], if maxConnections < 0 then 0 else maxConnections,
    newFixedWindowRateLimiter maxDHAcceptRate, 0, 0, 0, 0, 0, 0, 0, 0, 0, 0, 0, 0⟩

/-- `DataPlane.getOrCreateSession` from the Go source: refresh the
last-seen time of an existing session; otherwise fail when a positive
limit is already reached, or insert a fresh session. -/
def getOrCreateSession (st : DPState) (connID : Int) (now : Int) :
    Except DPError DPState :=
  if (st.sessions.lookup connID).isSome then
    .ok { st with sessions := st.sessions.map fun p =>
            if p.1 = connID then (p.1, { p.2 with lastSeenAt := now }) else p }
  else if 0 < st.maxConnections ∧ st.maxConnections ≤ (st.sessions.length : Int) then
    .error .connectionLimit
  else
    .ok { st with sessions := (connID, ⟨SessionState.init, now, 0⟩) :: st.sessions,
                  sessionsCreated := addU64 st.sessionsCreated 1 }

/-- The mutation the Go source performs on the session after
get-or-create: refresh last-seen, count the packet, feed the
classification into the state machine. -/
def sessionsAccept (sessions : List (Int × DPSession)) (connID : Int)
    (now : Int) (info : PacketInfo) : List (Int × DPSession) :=
  sessions.map fun p =>
    if p.1 = connID then
      (p.1, ⟨acceptInfo p.2.state info, now, p.2.packets + 1⟩)
    else p

/-- `DataPlane.HandlePacketWithResponse` from the Go source.  The two
collaborator calls — `runtime.Forward` and `runtime.exchangeOutbound` —
live outside the data plane's state and are supplied as oracle outcomes
(`forwardRes`, `exchangeRes`); the target health marking they trigger
belongs to the `Runtime` health map modelled by `applyConfigHealth`'s
state, not to `DPState`. -/
def HandlePacketWithResponse (st : DPState) (connID : Int) (targetDC : Int)
    (frame : List Nat) (now : Int)
    (forwardRes : Except Unit ForwardDecision)
    (exchangeRes : Except Unit (List Nat)) :
    Except DPError (PacketInfo × ForwardDecision × List Nat) × DPState :=
  let st1 := { st with packetsTotal := addU64 st.packetsTotal 1,
                       bytesTotal := addU64 st.bytesTotal frame.length }
  match ParseMTProtoPacket frame with
  | .error _ =>
    (.error .parseError,
     { st1 with packetsParseErrors := addU64 st1.packetsParseErrors 1,
                packetsDropped := addU64 st1.packetsDropped 1 })
  | .ok info =>
    let allowPair :=
      if info.kind = PacketKind.dhHandshake then limiterAllow st1.dhLimiter now
      else (true, st1.dhLimiter)
    let st2 := { st1 with dhLimiter := allowPair.2 }
    if info.kind = PacketKind.dhHandshake ∧ allowPair.1 = false then
      (.error .dhRateExceeded,
       { st2 with packetsRejectedByDH := addU64 st2.packetsRejectedByDH 1,
                  packetsDropped := addU64 st2.packetsDropped 1 })
    else
      match getOrCreateSession st2 connID now with
      | .error e =>
        (.error e,
         { st2 with packetsRejectedByLimit := addU64 st2.packetsRejectedByLimit 1,
                    packetsDropped := addU64 st2.packetsDropped 1 })
      | .ok st3 =>
        let st4 := { st3 with sessions := sessionsAccept st3.sessions connID now info }
        let st5 :=
          match info.kind with
          | .encrypted => { st4 with packetsEncrypted := addU64 st4.packetsEncrypted 1 }
          | .dhHandshake => { st4 with packetsHandshake := addU64 st4.packetsHandshake 1 }
          | .unknown => st4
        match forwardRes with
        | .error _ =>
          (.error .routeError,
           { st5 with packetsRouteErrors := addU64 st5.packetsRouteErrors 1,
                      packetsDropped := addU64 st5.packetsDropped 1 })
        | .ok decision =>
          match exchangeRes with
          | .error _ =>
            (.error .outboundError,
             { st5 with packetsOutboundErrors := addU64 st5.packetsOutboundErrors 1,
                        packetsDropped := addU64 st5.packetsDropped 1 })
          | .ok resp => (.ok (info, decision, resp), st5)

/-- `DataPlane.CloseConnection` from the Go source. -/
def CloseConnection (st : DPState) (connID : Int) : Bool × DPState :=
  if (st.sessions.lookup connID).isSome then
    (true, { st with sessions := st.sessions.filter fun p => p.1 ≠ connID,
                     sessionsClosed := addU64 st.sessionsClosed 1 })
  else (false, st)

/-- `DataPlane.PruneIdle` from the Go source: drop sessions whose
last-seen time is strictly before `now - idle` (negative idle clamps
to 0). -/
def PruneIdle (st : DPState) (idle now : Int) : Nat × DPState :=
  let idle2 := if idle < 0 then 0 else idle
  let kept := st.sessions.filter fun p => ¬ p.2.lastSeenAt < now - idle2
  let pruned := st.sessions.length - kept.length
  (pruned,
   if 0 < pruned then
     { st with sessions := kept, sessionsClosed := addU64 st.sessionsClosed pruned }
   else { st with sessions := kept })

/-- `DataPlane.SetSessionLimit` from the Go source: clamp negatives to 0
and store; existing sessions are not pruned. -/
def SetSessionLimit (st : DPState) (maxConnections : Int) : DPState :=
  { st with maxConnections := if maxConnections < 0 then 0 else maxConnections }

theorem getOrCreateSession_ok (st : DPState) (connID now : Int) (st3 : DPState)
    (h : getOrCreateSession st connID now = .ok st3) :
    st3.maxConnections = st.maxConnections
    ∧ st3.packetsTotal = st.packetsTotal
    ∧ st3.bytesTotal = st.bytesTotal
    ∧ (st3.sessions.length = st.sessions.length
       ∨ (st3.sessions.length = st.sessions.length + 1
          ∧ ¬ (0 < st.maxConnections
               ∧ st.maxConnections ≤ (st.sessions.length : Int)))) := by
  unfold getOrCreateSession at h
  by_cases hmem : (st.sessions.lookup connID).isSome
  · rw [if_pos hmem] at h
    simp only [Except.ok.injEq] at h
    subst h
    exact ⟨rfl, rfl, rfl, Or.inl (by simp)⟩
  · rw [if_neg hmem] at h
    by_cases hlim : 0 < st.maxConnections ∧ st.maxConnections ≤ (st.sessions.length : Int)
    · rw [if_pos hlim] at h
      exact absurd h (by simp)
    · rw [if_neg hlim] at h
      simp only [Except.ok.injEq] at h
      subst h
      exact ⟨rfl, rfl, rfl, Or.inr ⟨by simp, hlim⟩⟩


/-- C10: every `HandlePacketWithResponse` call — including the parse-error,
DH-rate-limited, session-limit, route-error and outbound-error paths —
bumps `packets_total` by exactly one and `bytes_total` by exactly the frame
length (as wrapping `uint64` additions), so dropped packets are always also
counted. -/
theorem handlePacket_counts_all (st : DPState) (connID targetDC : Int)
    (frame : List Nat) (now : Int) (f : Except Unit ForwardDecision)
    (x : Except Unit (List Nat)) :
    ((HandlePacketWithResponse st connID targetDC frame now f x).2).packetsTotal
        = addU64 st.packetsTotal 1
    ∧ ((HandlePacketWithResponse st connID targetDC frame now f x).2).bytesTotal
        = addU64 st.bytesTotal frame.length := by
  unfold HandlePacketWithResponse
  cases hp : ParseMTProtoPacket frame with
  | error e => exact ⟨rfl, rfl⟩
  | ok info =>
    dsimp only
    by_cases hdh : info.kind = PacketKind.dhHandshake
    · by_cases hallow : (limiterAllow st.dhLimiter now).1 = false
      · simp [hdh, hallow]
      · simp only [hdh, hallow, eq_self_iff_true, true_and, if_true, and_false,
          if_false]
        rw [if_neg (by simp)]
        split
        · exact ⟨rfl, rfl⟩
        · next st3 hgo =>
          obtain ⟨-, hpt, hbt, -⟩ := getOrCreateSession_ok _ connID now st3 hgo
          cases f <;> cases x <;> exact ⟨hpt, hbt⟩
    · simp only [hdh, false_and, if_false, ite_false]
      split
      · exact ⟨rfl, rfl⟩
      · next st3 hgo =>
        obtain ⟨-, hpt, hbt, -⟩ := getOrCreateSession_ok _ connID now st3 hgo
        cases f <;> cases x <;> cases hk : info.kind <;>
          first
            | exact absurd hk hdh
            | exact ⟨hpt, hbt⟩

/-- The session-limit invariant claimed for the data plane. -/
def SessionLimitInv (s : DPState) : Prop :=
  0 < s.maxConnections → (s.sessions.length : Int) ≤ s.maxConnections

theorem getOrCreateSession_full (st : DPState) (connID now : Int)
    (hnew : st.sessions.lookup connID = none)
    (hpos : 0 < st.maxConnections)
    (hfull : st.maxConnections ≤ (st.sessions.length : Int)) :
    getOrCreateSession st connID now = .error .connectionLimit := by
  unfold getOrCreateSession
  rw [hnew]
  simp [hpos, hfull]

theorem handlePacket_inv (s : DPState) (connID targetDC : Int)
    (frame : List Nat) (now : Int) (f : Except Unit ForwardDecision)
    (x : Except Unit (List Nat)) (h : SessionLimitInv s) :
    SessionLimitInv (HandlePacketWithResponse s connID targetDC frame now f x).2 := by
  have h2 : 0 < s.maxConnections → (s.sessions.length : Int) ≤ s.maxConnections := h
  unfold HandlePacketWithResponse
  cases hp : ParseMTProtoPacket frame with
  | error e => exact h
  | ok info =>
    dsimp only
    by_cases hdh : info.kind = PacketKind.dhHandshake
    · by_cases hallow : (limiterAllow s.dhLimiter now).1 = false
      · simp only [hdh, hallow, eq_self_iff_true, true_and, if_true]
        exact h
      · simp only [hdh, hallow, eq_self_iff_true, true_and, if_true, and_false,
          if_false]
        rw [if_neg (by simp)]
        split
        · exact h
        · next st3 hgo =>
          obtain ⟨hmc, -, -, hlen⟩ := getOrCreateSession_ok _ connID now st3 hgo
          cases f <;> cases x <;>
            (intro hpos
             dsimp only at hmc hlen hpos ⊢
             have hmap : (sessionsAccept st3.sessions connID now info).length
                 = st3.sessions.length := by simp [sessionsAccept]
             rw [hmap]
             rcases hlen with hsame | ⟨hsucc, hnot⟩ <;> omega)
    · simp only [hdh, false_and, if_false, ite_false]
      split
      · exact h
      · next st3 hgo =>
        obtain ⟨hmc, -, -, hlen⟩ := getOrCreateSession_ok _ connID now st3 hgo
        cases f <;> cases x <;> cases hk : info.kind <;>
          first
            | exact absurd hk hdh
            | (intro hpos
               dsimp only at hmc hlen hpos ⊢
               have hmap : (sessionsAccept st3.sessions connID now info).length
                   = st3.sessions.length := by simp [sessionsAccept]
               rw [hmap]
               rcases hlen with hsame | ⟨hsucc, hnot⟩ <;> omega)

theorem closeConnection_inv (s : DPState) (connID : Int) (h : SessionLimitInv s) :
    SessionLimitInv (CloseConnection s connID).2 := by
  unfold CloseConnection
  by_cases hmem : (s.sessions.lookup connID).isSome
  · rw [if_pos hmem]
    intro hpos
    dsimp only at hpos ⊢
    have hle := List.length_filter_le (fun p => p.1 ≠ connID) s.sessions
    have := h hpos
    omega
  · rw [if_neg hmem]
    exact h

theorem pruneIdle_inv (s : DPState) (idle now : Int) (h : SessionLimitInv s) :
    SessionLimitInv (PruneIdle s idle now).2 := by
  unfold PruneIdle
  dsimp only
  split <;> split <;>
    (intro hpos
     exact le_trans (Nat.cast_le.mpr (List.length_filter_le _ _)) (h hpos))

theorem setSessionLimit_inv (s : DPState) (v : Int)
    (hv : v ≤ 0 ∨ (s.sessions.length : Int) ≤ v) (h : SessionLimitInv s) :
    SessionLimitInv (SetSessionLimit s v) := by
  unfold SetSessionLimit
  intro hpos
  dsimp only at hpos ⊢
  by_cases hneg : v < 0
  · rw [if_pos hneg] at hpos
    omega
  · rw [if_neg hneg] at hpos ⊢
    omega

/-- The data-plane states reachable by arbitrary sequences of
`HandlePacketWithResponse`, `CloseConnection`, `PruneIdle` and
`SetSessionLimit` from a fresh `NewDataPlane` — the reading the claim
quantifies over. -/
inductive DPReachable : DPState → Prop where
  | init (maxConnections maxDHAcceptRate : Int) :
      DPReachable (NewDataPlane maxConnections maxDHAcceptRate)
  | handle {s : DPState} (connID targetDC : Int) (frame : List Nat) (now : Int)
      (f : Except Unit ForwardDecision) (x : Except Unit (List Nat)) :
      DPReachable s →
      DPReachable (HandlePacketWithResponse s connID targetDC frame now f x).2
  | close {s : DPState} (connID : Int) :
      DPReachable s → DPReachable (CloseConnection s connID).2
  | prune {s : DPState} (idle now : Int) :
      DPReachable s → DPReachable (PruneIdle s idle now).2
  | setLimit {s : DPState} (v : Int) :
      DPReachable s → DPReachable (SetSessionLimit s v)

/-- Reachability when `SetSessionLimit` is never used to lower a positive
limit below the number of live sessions. -/
inductive DPReachableGuarded : DPState → Prop where
  | init (maxConnections maxDHAcceptRate : Int) :
      DPReachableGuarded (NewDataPlane maxConnections maxDHAcceptRate)
  | handle {s : DPState} (connID targetDC : Int) (frame : List Nat) (now : Int)
      (f : Except Unit ForwardDecision) (x : Except Unit (List Nat)) :
      DPReachableGuarded s →
      DPReachableGuarded (HandlePacketWithResponse s connID targetDC frame now f x).2
  | close {s : DPState} (connID : Int) :
      DPReachableGuarded s → DPReachableGuarded (CloseConnection s connID).2
  | prune {s : DPState} (idle now : Int) :
      DPReachableGuarded s → DPReachableGuarded (PruneIdle s idle now).2
  | setLimit {s : DPState} (v : Int)
      (hv : v ≤ 0 ∨ (s.sessions.length : Int) ≤ v) :
      DPReachableGuarded s → DPReachableGuarded (SetSessionLimit s v)

/-- A 56-byte frame whose first byte is 1: a valid encrypted envelope with
auth-key id 1. -/
def encFrame : List Nat := 1 :: List.replicate 55 0

/-- Start unlimited, accept packets from three connections, then lower the
session limit to 2. -/
def dpViolating : DPState :=
  SetSessionLimit
    (HandlePacketWithResponse
      (HandlePacketWithResponse
        (HandlePacketWithResponse (NewDataPlane 0 0) 1 0 encFrame 0
          (.error ()) (.error ())).2
        2 0 encFrame 0 (.error ()) (.error ())).2
      3 0 encFrame 0 (.error ()) (.error ())).2
    2

/-- Counterexample for C2: `dpViolating` is reachable by the claim's
operations, has a positive session limit, and holds more live sessions
than the limit — `SetSessionLimit` does not prune existing sessions. -/
theorem dataPlane_sessionLimit_counterexample :
    DPReachable dpViolating
    ∧ 0 < dpViolating.maxConnections
    ∧ ¬ ((dpViolating.sessions.length : Int) ≤ dpViolating.maxConnections) := by
  refine ⟨?_, by decide, by decide⟩
  exact DPReachable.setLimit 2
    (DPReachable.handle 3 0 encFrame 0 (.error ()) (.error ())
      (DPReachable.handle 2 0 encFrame 0 (.error ()) (.error ())
        (DPReachable.handle 1 0 encFrame 0 (.error ()) (.error ())
          (DPReachable.init 0 0))))

/-- C2 (amended): the session-limit invariant holds in every state
reachable without lowering a positive limit below the live-session count
(`SetSessionLimit` does not prune, so such a call is the one way to break
it); and unconditionally, a `HandlePacketWithResponse` call that would
have to create a session while a positive limit is already reached fails
with the connection-limit error and leaves the session map unchanged. -/
theorem dataPlane_sessionLimit_amended :
    (∀ s, DPReachableGuarded s → SessionLimitInv s)
    ∧ (∀ (s : DPState) (connID targetDC : Int) (frame : List Nat) (now : Int)
        (f : Except Unit ForwardDecision) (x : Except Unit (List Nat))
        (info : PacketInfo),
        ParseMTProtoPacket frame = .ok info →
        (info.kind = PacketKind.dhHandshake →
          (limiterAllow s.dhLimiter now).1 = true) →
        s.sessions.lookup connID = none →
        0 < s.maxConnections →
        s.maxConnections ≤ (s.sessions.length : Int) →
        (HandlePacketWithResponse s connID targetDC frame now f x).1
            = .error DPError.connectionLimit
        ∧ ((HandlePacketWithResponse s connID targetDC frame now f x).2).sessions
            = s.sessions) := by
  constructor
  · intro s hreach
    induction hreach with
    | init mc rate =>
      intro hpos
      simp only [NewDataPlane, List.length_nil, Nat.cast_zero]
      split <;> omega
    | handle connID targetDC frame now f x hr ih =>
      exact handlePacket_inv _ connID targetDC frame now f x ih
    | close connID hr ih => exact closeConnection_inv _ connID ih
    | prune idle now hr ih => exact pruneIdle_inv _ idle now ih
    | setLimit v hv hr ih => exact setSessionLimit_inv _ v hv ih
  · intro s connID targetDC frame now f x info hp hdha hnew hpos hfull
    unfold HandlePacketWithResponse
    rw [hp]
    dsimp only
    by_cases hdh : info.kind = PacketKind.dhHandshake
    · have hallow : (limiterAllow s.dhLimiter now).1 = true := hdha hdh
      simp only [hdh, hallow, eq_self_iff_true, true_and, if_true]
      rw [if_neg (by simp)]
      rw [getOrCreateSession_full]
      · exact ⟨rfl, rfl⟩
      · exact hnew
      · exact hpos
      · exact hfull
    · simp only [hdh, false_and, if_false, ite_false]
      rw [getOrCreateSession_full]
      · exact ⟨rfl, rfl⟩
      · exact hnew
      · exact hpos
      · exact hfull

/-- One accepted packet on a limit-1 data plane: one live session. -/
def dpFull : DPState :=
  (HandlePacketWithResponse (NewDataPlane 1 0) 1 0 encFrame 0
    (.error ()) (.error ())).2

/-- Witness for C2 (amended): on the full limit-1 data plane, a packet
from a second connection is rejected with the connection-limit error and
the session map is unchanged (scenario S5 of the spec). -/
theorem dataPlane_sessionLimit_amended_witness :
    (HandlePacketWithResponse dpFull 2 0 encFrame 0 (.error ()) (.error ())).1
      = .error DPError.connectionLimit := by
  have h := dataPlane_sessionLimit_amended.2 dpFull 2 0 encFrame 0
    (.error ()) (.error ()) ⟨.encrypted, 1, 0, 0, 56⟩ (by rfl) (by decide)
    (by decide) (by decide) (by decide)
  exact h.1
